import Mathlib

/-!
Verification development for the PASEOS simulation kernel.

The repository ships its documentation (README) and example notebooks; the
Python implementation of the time-advance engine, the power model and the
activity scheduler is described by the specification.  The definitions below
are therefore shallow embeddings modelled from the specification text
(sections 4.1 to 4.5, 6 and 7), with rational numbers standing for the
floating-point quantities of the implementation.
-/

namespace Paseos

/-- Modelled from the spec: clamping of a quantity to an interval,
used by the power model (section 4.1). -/
def clamp (lo hi x : ℚ) : ℚ := max lo (min x hi)

/-- Modelled from the spec: the two supported power device kinds
(SolarPanel charges only outside eclipse, RTG charges unconditionally). -/
inductive PowerDeviceType where
  | SolarPanel
  | RTG
deriving DecidableEq, Repr

/-- Modelled from the spec: the battery state of the power device
(current level, maximum level, charging rate, device kind). -/
structure Battery where
  level : ℚ
  maxLevel : ℚ
  chargingRate : ℚ
  deviceType : PowerDeviceType
deriving DecidableEq, Repr

/-- Modelled from the spec: whether charging applies — only when not
eclipsed for SolarPanel devices, unconditionally for RTG devices. -/
def chargeApplies : PowerDeviceType → Bool → Bool
  | .RTG, _ => true
  | .SolarPanel, eclipsed => !eclipsed

/-- Modelled from the spec: one step of the power model (section 4.1),
`level = clamp(level + (charging_rate_if_applicable - power_consumption) * dt, 0, max)`. -/
def powerStep (eclipsed : Bool) (consumption dt : ℚ) (b : Battery) : Battery :=
  { b with
    level := clamp 0 b.maxLevel
      (b.level + ((if chargeApplies b.deviceType eclipsed then b.chargingRate else 0)
          - consumption) * dt) }

/-- Modelled from the spec: the constraint evaluator (section 4.3).  A user
predicate that raises (here an `Except.error`) is treated as a `False`
result together with a surfaced error record; an absent predicate means
always continue.  The first component is the continue/stop verdict, the
second the surfaced error record, if any. -/
def evalConstraint {σ : Type} (cf : Option (σ → Except String Bool)) (s : σ) :
    Bool × Option String :=
  match cf with
  | none => (true, none)
  | some g =>
    match g s with
    | .ok b => (b, none)
    | .error e => (false, some e)

/-- Modelled from the spec: whether advancing elapsed time from `old` to
`new` has crossed (reached) a positive multiple of the cadence `c`
(section 4.4, step 2d). -/
def crossedCadence (c old new : ℚ) : Bool :=
  decide (old < ((⌊new / c⌋ : ℤ) : ℚ) * c)

/-- Outcome of a run of the time-advance engine. -/
inductive Outcome where
  | completed
  | interrupted
  | fuelOut
deriving DecidableEq, Repr

/-- Result record of a run of the time-advance engine: the returned
remaining duration, the consumed simulated time, the final clock and
physical state, the individual step sizes taken, the constraint
evaluations performed (elapsed time and verdict), the surfaced error
records, and the outcome. -/
structure RunResult (σ : Type) where
  remaining : ℚ
  elapsed : ℚ
  clock : ℚ
  state : σ
  steps : List ℚ
  checks : List (ℚ × Bool)
  errors : List String
  outcome : Outcome

/-- Modelled from the spec: the stepping loop of the Time-Advance Engine
(section 4.4).  While `elapsed < T`, take a step of size
`min dt (T - elapsed)`, advance the physical state and the clock, and —
when a constraint function is present and a cadence multiple was crossed
or the final step was taken — evaluate the constraint; on a `False`
verdict stop immediately and return `T - elapsed`.  On normal completion
return `0`.  The natural-number fuel bounds the number of iterations and
is chosen large enough by `advance_time` below. -/
def advanceLoop {σ : Type} (stepFn : σ → ℚ → σ) (cadence T dt : ℚ)
    (cf : Option (σ → Except String Bool)) :
    ℕ → ℚ → ℚ → σ → RunResult σ
  | 0, elapsed, clock, s =>
    if elapsed < T then
      ⟨T - elapsed, elapsed, clock, s, [], [], [], .fuelOut⟩
    else
      ⟨0, elapsed, clock, s, [], [], [], .completed⟩
  | fuel + 1, elapsed, clock, s =>
    if elapsed < T then
      let step := min dt (T - elapsed)
      let s2 := stepFn s step
      let clock2 := clock + step
      let elapsed2 := elapsed + step
      if cf.isSome && (crossedCadence cadence elapsed elapsed2 || decide (T ≤ elapsed2)) then
        let ev := evalConstraint cf s2
        if ev.1 then
          let r := advanceLoop stepFn cadence T dt cf fuel elapsed2 clock2 s2
          ⟨r.remaining, r.elapsed, r.clock, r.state, step :: r.steps,
            (elapsed2, true) :: r.checks, r.errors, r.outcome⟩
        else
          ⟨T - elapsed2, elapsed2, clock2, s2, [step], [(elapsed2, false)],
            ev.2.toList, .interrupted⟩
      else
        let r := advanceLoop stepFn cadence T dt cf fuel elapsed2 clock2 s2
        ⟨r.remaining, r.elapsed, r.clock, r.state, step :: r.steps,
          r.checks, r.errors, r.outcome⟩
    else
      ⟨0, elapsed, clock, s, [], [], [], .completed⟩

/-- Fuel sufficient to drive the loop to completion: two more than the
floor of the number of steps of size `dt` fitting into `T`. -/
def fuelFor (T dt : ℚ) : ℕ := (⌊T / dt⌋).toNat + 2

/-- Modelled from the spec: the public operation of the Time-Advance
Engine (section 4.4),
`advance_time(total_duration, dt, constraint_fn, power_consumption)`.
Power consumption is folded into `stepFn`; the run starts at elapsed
time `0` with the given clock and physical state. -/
def advance_time {σ : Type} (stepFn : σ → ℚ → σ) (cadence T dt : ℚ)
    (cf : Option (σ → Except String Bool)) (clock : ℚ) (s : σ) : RunResult σ :=
  advanceLoop stepFn cadence T dt cf (fuelFor T dt) 0 clock s

/-- Greedy stepping discipline of the spec (section 4.4, step 2a): each
step has size `min dt remaining` until the remaining duration is
exhausted. -/
def greedy (dt : ℚ) : ℚ → List ℚ → Prop
  | rem, [] => rem ≤ 0
  | rem, st :: rest => 0 < rem ∧ st = min dt rem ∧ greedy dt (rem - st) rest

section EngineLemmas

variable {σ : Type} (stepFn : σ → ℚ → σ) (cadence T dt : ℚ)
variable (cf : Option (σ → Except String Bool))

/-- The clock advances by exactly the consumed simulated time. -/
theorem advanceLoop_clock :
    ∀ (fuel : ℕ) (elapsed clock : ℚ) (s : σ),
      (advanceLoop stepFn cadence T dt cf fuel elapsed clock s).clock
        = clock + ((advanceLoop stepFn cadence T dt cf fuel elapsed clock s).elapsed - elapsed) := by
  intro fuel
  induction fuel with
  | zero =>
    intro elapsed clock s
    by_cases h : elapsed < T <;> simp [advanceLoop, h]
  | succ fuel ih =>
    intro elapsed clock s
    by_cases h : elapsed < T
    · rw [advanceLoop]
      simp only [if_pos h]
      by_cases hdue : (cf.isSome && (crossedCadence cadence elapsed (elapsed + min dt (T - elapsed))
          || decide (T ≤ elapsed + min dt (T - elapsed)))) = true
      · simp only [hdue, if_pos]
        by_cases hev : (evalConstraint cf (stepFn s (min dt (T - elapsed)))).1 = true
        · simp only [hev, if_pos]
          rw [ih]
          ring
        · simp only [hev, if_neg]
          simp
      · simp only [if_neg hdue]
        rw [ih]
        ring
    · rw [advanceLoop]
      simp [h]

/-- The consumed simulated time is the sum of the recorded step sizes. -/
theorem advanceLoop_steps_sum :
    ∀ (fuel : ℕ) (elapsed clock : ℚ) (s : σ),
      (advanceLoop stepFn cadence T dt cf fuel elapsed clock s).steps.sum
        = (advanceLoop stepFn cadence T dt cf fuel elapsed clock s).elapsed - elapsed := by
  intro fuel
  induction fuel with
  | zero =>
    intro elapsed clock s
    by_cases h : elapsed < T <;> simp [advanceLoop, h]
  | succ fuel ih =>
    intro elapsed clock s
    by_cases h : elapsed < T
    · rw [advanceLoop]
      simp only [if_pos h]
      by_cases hdue : (cf.isSome && (crossedCadence cadence elapsed (elapsed + min dt (T - elapsed))
          || decide (T ≤ elapsed + min dt (T - elapsed)))) = true
      · simp only [hdue, if_pos]
        by_cases hev : (evalConstraint cf (stepFn s (min dt (T - elapsed)))).1 = true
        · simp only [hev, if_pos, List.sum_cons]
          rw [ih]
          ring
        · simp only [hev, if_neg]
          simp
      · simp only [if_neg hdue, List.sum_cons]
        rw [ih]
        ring
    · rw [advanceLoop]
      simp [h]

/-- The consumed simulated time never exceeds the requested duration. -/
theorem advanceLoop_elapsed_le :
    ∀ (fuel : ℕ) (elapsed clock : ℚ) (s : σ), elapsed ≤ T →
      (advanceLoop stepFn cadence T dt cf fuel elapsed clock s).elapsed ≤ T := by
  intro fuel
  induction fuel with
  | zero =>
    intro elapsed clock s hle
    by_cases h : elapsed < T <;> simp [advanceLoop, h, hle]
  | succ fuel ih =>
    intro elapsed clock s hle
    have hstep : elapsed + min dt (T - elapsed) ≤ T := by
      have : min dt (T - elapsed) ≤ T - elapsed := min_le_right _ _
      linarith
    by_cases h : elapsed < T
    · rw [advanceLoop]
      simp only [if_pos h]
      by_cases hdue : (cf.isSome && (crossedCadence cadence elapsed (elapsed + min dt (T - elapsed))
          || decide (T ≤ elapsed + min dt (T - elapsed)))) = true
      · simp only [hdue, if_pos]
        by_cases hev : (evalConstraint cf (stepFn s (min dt (T - elapsed)))).1 = true
        · simp only [hev, if_pos]
          exact ih _ _ _ hstep
        · simp only [hev, if_neg]
          simpa using hstep
      · simp only [if_neg hdue]
        exact ih _ _ _ hstep
    · rw [advanceLoop]
      simp [h, hle]

/-- The consumed simulated time is nonnegative relative to the start. -/
theorem advanceLoop_le_elapsed (hdt : 0 ≤ dt) :
    ∀ (fuel : ℕ) (elapsed clock : ℚ) (s : σ),
      elapsed ≤ (advanceLoop stepFn cadence T dt cf fuel elapsed clock s).elapsed := by
  intro fuel
  induction fuel with
  | zero =>
    intro elapsed clock s
    by_cases h : elapsed < T <;> simp [advanceLoop, h]
  | succ fuel ih =>
    intro elapsed clock s
    by_cases h : elapsed < T
    · have hstep : elapsed ≤ elapsed + min dt (T - elapsed) := by
        have : (0 : ℚ) ≤ min dt (T - elapsed) := le_min hdt (by linarith)
        linarith
      rw [advanceLoop]
      simp only [if_pos h]
      by_cases hdue : (cf.isSome && (crossedCadence cadence elapsed (elapsed + min dt (T - elapsed))
          || decide (T ≤ elapsed + min dt (T - elapsed)))) = true
      · simp only [hdue, if_pos]
        by_cases hev : (evalConstraint cf (stepFn s (min dt (T - elapsed)))).1 = true
        · simp only [hev, if_pos]
          exact le_trans hstep (ih _ _ _)
        · simp only [hev, if_neg]
          simpa using hstep
      · simp only [if_neg hdue]
        exact le_trans hstep (ih _ _ _)
    · rw [advanceLoop]
      simp [h]

/-- Every recorded step size is nonnegative. -/
theorem advanceLoop_steps_nonneg (hdt : 0 ≤ dt) :
    ∀ (fuel : ℕ) (elapsed clock : ℚ) (s : σ),
      ∀ x ∈ (advanceLoop stepFn cadence T dt cf fuel elapsed clock s).steps, 0 ≤ x := by
  intro fuel
  induction fuel with
  | zero =>
    intro elapsed clock s
    by_cases h : elapsed < T <;> simp [advanceLoop, h]
  | succ fuel ih =>
    intro elapsed clock s
    by_cases h : elapsed < T
    · have hstep : (0 : ℚ) ≤ min dt (T - elapsed) := le_min hdt (by linarith)
      rw [advanceLoop]
      simp only [if_pos h]
      by_cases hdue : (cf.isSome && (crossedCadence cadence elapsed (elapsed + min dt (T - elapsed))
          || decide (T ≤ elapsed + min dt (T - elapsed)))) = true
      · simp only [hdue, if_pos]
        by_cases hev : (evalConstraint cf (stepFn s (min dt (T - elapsed)))).1 = true
        · simp only [hev, if_pos]
          intro x hx
          rcases List.mem_cons.mp hx with hx | hx
          · simpa [hx] using hstep
          · exact ih _ _ _ x hx
        · simp only [hev, if_neg]
          intro x hx
          have hx2 : x = min dt (T - elapsed) := by simpa using hx
          simpa [hx2] using hstep
      · simp only [if_neg hdue]
        intro x hx
        rcases List.mem_cons.mp hx with hx | hx
        · simpa [hx] using hstep
        · exact ih _ _ _ x hx
    · rw [advanceLoop]
      simp [h]

/-- On a completed run, the returned remainder is zero and the full
duration has been consumed. -/
theorem advanceLoop_completed :
    ∀ (fuel : ℕ) (elapsed clock : ℚ) (s : σ),
      (advanceLoop stepFn cadence T dt cf fuel elapsed clock s).outcome = .completed →
      (advanceLoop stepFn cadence T dt cf fuel elapsed clock s).remaining = 0 ∧
        T ≤ (advanceLoop stepFn cadence T dt cf fuel elapsed clock s).elapsed := by
  intro fuel
  induction fuel with
  | zero =>
    intro elapsed clock s
    by_cases h : elapsed < T <;> simp [advanceLoop, h]
    linarith
  | succ fuel ih =>
    intro elapsed clock s
    by_cases h : elapsed < T
    · rw [advanceLoop]
      simp only [if_pos h]
      by_cases hdue : (cf.isSome && (crossedCadence cadence elapsed (elapsed + min dt (T - elapsed))
          || decide (T ≤ elapsed + min dt (T - elapsed)))) = true
      · simp only [hdue, if_pos]
        by_cases hev : (evalConstraint cf (stepFn s (min dt (T - elapsed)))).1 = true
        · simp only [hev, if_pos]
          exact ih _ _ _
        · simp only [hev, if_neg]
          simp
      · simp only [if_neg hdue]
        exact ih _ _ _
    · rw [advanceLoop]
      simp [h]
      linarith

/-- On an interrupted run: the returned value is the unconsumed
remainder, the final recorded check is the failing one at the final
elapsed time, all earlier checks passed, the constraint evaluates to
false on the final state, and exactly its surfaced error record is
returned. -/
theorem advanceLoop_interrupted :
    ∀ (fuel : ℕ) (elapsed clock : ℚ) (s : σ),
      (advanceLoop stepFn cadence T dt cf fuel elapsed clock s).outcome = .interrupted →
      (advanceLoop stepFn cadence T dt cf fuel elapsed clock s).remaining
          = T - (advanceLoop stepFn cadence T dt cf fuel elapsed clock s).elapsed ∧
        (∃ pre, (advanceLoop stepFn cadence T dt cf fuel elapsed clock s).checks
            = pre ++ [((advanceLoop stepFn cadence T dt cf fuel elapsed clock s).elapsed, false)] ∧
          ∀ c ∈ pre, c.2 = true) ∧
        (evalConstraint cf (advanceLoop stepFn cadence T dt cf fuel elapsed clock s).state).1 = false ∧
        (advanceLoop stepFn cadence T dt cf fuel elapsed clock s).errors
          = (evalConstraint cf (advanceLoop stepFn cadence T dt cf fuel elapsed clock s).state).2.toList := by
  intro fuel
  induction fuel with
  | zero =>
    intro elapsed clock s
    by_cases h : elapsed < T <;> simp [advanceLoop, h]
  | succ fuel ih =>
    intro elapsed clock s
    by_cases h : elapsed < T
    · rw [advanceLoop]
      simp only [if_pos h]
      by_cases hdue : (cf.isSome && (crossedCadence cadence elapsed (elapsed + min dt (T - elapsed))
          || decide (T ≤ elapsed + min dt (T - elapsed)))) = true
      · simp only [hdue, if_pos]
        by_cases hev : (evalConstraint cf (stepFn s (min dt (T - elapsed)))).1 = true
        · simp only [hev, if_pos]
          intro hout
          obtain ⟨h1, ⟨pre, hpre, hpretrue⟩, h3, h4⟩ := ih _ _ _ hout
          refine ⟨h1, ⟨(elapsed + min dt (T - elapsed), true) :: pre, ?_, ?_⟩, h3, h4⟩
          · simp [hpre]
          · intro c hc
            rcases List.mem_cons.mp hc with hc | hc
            · simp [hc]
            · exact hpretrue c hc
        · simp only [hev, if_neg]
          intro _
          refine ⟨rfl, ⟨[], by simp, by simp⟩, ?_, rfl⟩
          simpa using hev
      · simp only [if_neg hdue]
        intro hout
        obtain ⟨h1, ⟨pre, hpre, hpretrue⟩, h3, h4⟩ := ih _ _ _ hout
        exact ⟨h1, ⟨pre, hpre, hpretrue⟩, h3, h4⟩
    · rw [advanceLoop]
      simp [h]

/-- With enough fuel relative to the duration and the step size, the loop
never runs out of fuel. -/
theorem advanceLoop_fuel (hdt : 0 < dt) :
    ∀ (fuel : ℕ) (elapsed clock : ℚ) (s : σ), T - elapsed ≤ (fuel : ℚ) * dt →
      (advanceLoop stepFn cadence T dt cf fuel elapsed clock s).outcome ≠ .fuelOut := by
  intro fuel
  induction fuel with
  | zero =>
    intro elapsed clock s hfuel
    have : ¬ elapsed < T := by
      simp only [Nat.cast_zero, zero_mul] at hfuel
      linarith
    simp [advanceLoop, this]
  | succ fuel ih =>
    intro elapsed clock s hfuel
    by_cases h : elapsed < T
    · have hrec : T - (elapsed + min dt (T - elapsed)) ≤ (fuel : ℚ) * dt := by
        rcases le_total dt (T - elapsed) with hc | hc
        · rw [min_eq_left hc]
          push_cast at hfuel ⊢
          linarith
        · rw [min_eq_right hc]
          have : (0 : ℚ) ≤ (fuel : ℚ) * dt := by positivity
          linarith
      rw [advanceLoop]
      simp only [if_pos h]
      by_cases hdue : (cf.isSome && (crossedCadence cadence elapsed (elapsed + min dt (T - elapsed))
          || decide (T ≤ elapsed + min dt (T - elapsed)))) = true
      · simp only [hdue, if_pos]
        by_cases hev : (evalConstraint cf (stepFn s (min dt (T - elapsed)))).1 = true
        · simp only [hev, if_pos]
          exact ih _ _ _ hrec
        · simp only [hev, if_neg]
          simp
      · simp only [if_neg hdue]
        exact ih _ _ _ hrec
    · rw [advanceLoop]
      simp [h]

/-- Without a constraint function, no evaluation takes place, no error is
surfaced, and the run is never interrupted. -/
theorem advanceLoop_none :
    ∀ (fuel : ℕ) (elapsed clock : ℚ) (s : σ),
      (advanceLoop stepFn cadence T dt (none : Option (σ → Except String Bool))
          fuel elapsed clock s).checks = [] ∧
      (advanceLoop stepFn cadence T dt (none : Option (σ → Except String Bool))
          fuel elapsed clock s).errors = [] ∧
      (advanceLoop stepFn cadence T dt (none : Option (σ → Except String Bool))
          fuel elapsed clock s).outcome ≠ .interrupted := by
  intro fuel
  induction fuel with
  | zero =>
    intro elapsed clock s
    by_cases h : elapsed < T <;> simp [advanceLoop, h]
  | succ fuel ih =>
    intro elapsed clock s
    by_cases h : elapsed < T
    · rw [advanceLoop]
      simp only [if_pos h, Option.isSome_none, Bool.false_and, if_neg Bool.false_ne_true]
      exact ih _ _ _
    · rw [advanceLoop]
      simp [h]

/-- A constraint whose evaluation never rejects can never interrupt the
run. -/
theorem advanceLoop_alltrue (hall : ∀ s : σ, (evalConstraint cf s).1 = true) :
    ∀ (fuel : ℕ) (elapsed clock : ℚ) (s : σ),
      (advanceLoop stepFn cadence T dt cf fuel elapsed clock s).outcome ≠ .interrupted := by
  intro fuel
  induction fuel with
  | zero =>
    intro elapsed clock s
    by_cases h : elapsed < T <;> simp [advanceLoop, h]
  | succ fuel ih =>
    intro elapsed clock s
    by_cases h : elapsed < T
    · rw [advanceLoop]
      simp only [if_pos h]
      by_cases hdue : (cf.isSome && (crossedCadence cadence elapsed (elapsed + min dt (T - elapsed))
          || decide (T ≤ elapsed + min dt (T - elapsed)))) = true
      · simp only [hdue, if_pos, hall, if_pos]
        exact ih _ _ _
      · simp only [if_neg hdue]
        exact ih _ _ _
    · rw [advanceLoop]
      simp [h]

/-- On a completed run the step sizes follow the greedy discipline of the
spec: each step has size `min dt remaining`. -/
theorem advanceLoop_greedy :
    ∀ (fuel : ℕ) (elapsed clock : ℚ) (s : σ),
      (advanceLoop stepFn cadence T dt cf fuel elapsed clock s).outcome = .completed →
      greedy dt (T - elapsed) (advanceLoop stepFn cadence T dt cf fuel elapsed clock s).steps := by
  intro fuel
  induction fuel with
  | zero =>
    intro elapsed clock s
    by_cases h : elapsed < T <;> simp [advanceLoop, h, greedy]
    linarith
  | succ fuel ih =>
    intro elapsed clock s
    by_cases h : elapsed < T
    · rw [advanceLoop]
      simp only [if_pos h]
      by_cases hdue : (cf.isSome && (crossedCadence cadence elapsed (elapsed + min dt (T - elapsed))
          || decide (T ≤ elapsed + min dt (T - elapsed)))) = true
      · simp only [hdue, if_pos]
        by_cases hev : (evalConstraint cf (stepFn s (min dt (T - elapsed)))).1 = true
        · simp only [hev, if_pos]
          intro hout
          refine ⟨by linarith, rfl, ?_⟩
          have := ih _ _ _ hout
          have harith : T - (elapsed + min dt (T - elapsed))
              = T - elapsed - min dt (T - elapsed) := by ring
          rwa [harith] at this
        · simp only [hev, if_neg]
          simp
      · simp only [if_neg hdue]
        intro hout
        refine ⟨by linarith, rfl, ?_⟩
        have := ih _ _ _ hout
        have harith : T - (elapsed + min dt (T - elapsed))
            = T - elapsed - min dt (T - elapsed) := by ring
        rwa [harith] at this
    · rw [advanceLoop]
      intro
      simp only [if_neg h]
      simp only [greedy]
      linarith

/-- The fuel chosen by `advance_time` satisfies the sufficiency bound. -/
theorem fuelFor_bound (hdt : 0 < dt) : T ≤ ((fuelFor T dt : ℕ) : ℚ) * dt := by
  have h1 : T / dt < (⌊T / dt⌋ : ℚ) + 1 := Int.lt_floor_add_one _
  have h2 : ((⌊T / dt⌋ : ℤ) : ℚ) ≤ ((⌊T / dt⌋.toNat : ℕ) : ℚ) := by
    exact_mod_cast Int.self_le_toNat _
  have h3 : T / dt < ((⌊T / dt⌋.toNat : ℕ) : ℚ) + 2 := by linarith
  have h4 : T < (((⌊T / dt⌋.toNat : ℕ) : ℚ) + 2) * dt := by
    rw [div_lt_iff₀ hdt] at h3
    linarith [h3]
  have h5 : ((fuelFor T dt : ℕ) : ℚ) = ((⌊T / dt⌋.toNat : ℕ) : ℚ) + 2 := by
    unfold fuelFor
    push_cast
    ring
  rw [h5]
  linarith

end EngineLemmas

/-- Modelled from the spec: errors raised by `perform_activity`
(sections 4.5 and 7) — unknown activity name, another activity already in
flight, or a permanently failed (dead) actor. -/
inductive PaseosError where
  | UnknownActivityError
  | ActivityAlreadyRunningError
  | ActorDestroyedError
deriving DecidableEq, Repr

/-- Final state of a performed activity (section 4.5). -/
inductive ActOutcome where
  | COMPLETED
  | INTERRUPTED
deriving DecidableEq, Repr

/-- Modelled from the spec: what the Activity Scheduler observes on one
cadence tick of the driving loop (section 4.5) — whether a radiation
failure event killed the actor, whether a radiation restart event fired,
the verdict of the bound constraint function (a raising predicate already
mapped to `false` by the Constraint Evaluator), whether the activity body
raised, and whether the body finished on this tick. -/
structure Tick where
  deadEvent : Bool
  restart : Bool
  constraintHolds : Bool
  bodyRaises : Bool
  bodyFinishes : Bool
deriving DecidableEq, Repr

/-- Modelled from the spec: the per-instance simulation state owned by
the Activity Scheduler (sections 3 and 4.5): the registered-activity
table, whether an activity is in flight, the permanent failure flag of
the local actor, its simulation clock and its physical state. -/
structure Sim (σ : Type) where
  registered : List String
  running : Bool
  isDead : Bool
  clock : ℚ
  state : σ

/-- Result of driving one activity to termination: the final state of the
activity (none when the observation script ran out while the body was
still running), the number of on-termination hook invocations, the
updated simulation state, and the consumed step sizes. -/
structure ActRun (σ : Type) where
  outcome : Option ActOutcome
  hookCalls : ℕ
  sim : Sim σ
  steps : List ℚ

/-- Modelled from the spec: the driving loop of the Activity Scheduler
(section 4.5).  Each tick advances the physical state by one
`activity_timestep` cadence slice through the Time-Advance Engine, then
checks the permanent failure flag, body completion, a raising or
restarted body, and the constraint verdict.  Termination — successful or
interrupted — invokes the on-termination hook exactly once when one is
present and returns the scheduler to the idle state. -/
def activityLoop {σ : Type} (stepFn : σ → ℚ → σ) (cadence dt : ℚ) (hook : Bool) :
    List Tick → Sim σ → ActRun σ
  | [], sim => ⟨none, 0, sim, []⟩
  | t :: rest, sim =>
    let r := advance_time stepFn cadence cadence dt none sim.clock sim.state
    let sim2 : Sim σ := { sim with
      clock := r.clock, state := r.state, isDead := sim.isDead || t.deadEvent }
    if sim2.isDead then
      ⟨some .INTERRUPTED, if hook then 1 else 0, { sim2 with running := false }, r.steps⟩
    else if t.bodyFinishes then
      ⟨some .COMPLETED, if hook then 1 else 0, { sim2 with running := false }, r.steps⟩
    else if t.bodyRaises || t.restart || !t.constraintHolds then
      ⟨some .INTERRUPTED, if hook then 1 else 0, { sim2 with running := false }, r.steps⟩
    else
      let a := activityLoop stepFn cadence dt hook rest sim2
      ⟨a.outcome, a.hookCalls, a.sim, r.steps ++ a.steps⟩

/-- Modelled from the spec: `perform_activity` (section 4.5).  It fails
with `UnknownActivityError` when the name is not registered, with
`ActorDestroyedError` when the actor is permanently dead (section 7),
and with `ActivityAlreadyRunningError` when another activity is in
flight; on a failure the simulation state is untouched and no step is
consumed.  Otherwise the scheduler transitions to the running state and
drives the activity through the loop above. -/
def perform_activity {σ : Type} (stepFn : σ → ℚ → σ) (cadence dt : ℚ)
    (sim : Sim σ) (name : String) (hook : Bool) (script : List Tick) :
    Except PaseosError (Option ActOutcome × ℕ) × Sim σ × List ℚ :=
  if name ∈ sim.registered then
    if sim.isDead then (.error .ActorDestroyedError, sim, [])
    else if sim.running then (.error .ActivityAlreadyRunningError, sim, [])
    else
      let a := activityLoop stepFn cadence dt hook script { sim with running := true }
      (.ok (a.outcome, a.hookCalls), a.sim, a.steps)
  else (.error .UnknownActivityError, sim, [])

/-- Modelled from the spec: the calls a user can issue against one
simulation instance (section 2) — a plain bulk time advance or the
execution of a registered activity. -/
inductive Op (σ : Type) where
  | advance (T dt : ℚ) (cf : Option (σ → Except String Bool))
  | perform (name : String) (hook : Bool) (dt : ℚ) (script : List Tick)

/-- Well-formedness of a call: the physical integration step it uses is
nonnegative. -/
def Op.wf {σ : Type} : Op σ → Prop
  | .advance _ dt _ => 0 ≤ dt
  | .perform _ _ dt _ => 0 ≤ dt

/-- Execute one user call against the simulation state, returning the new
state and the list of consumed step sizes. -/
def runOp {σ : Type} (stepFn : σ → ℚ → σ) (cadence : ℚ) (sim : Sim σ) :
    Op σ → Sim σ × List ℚ
  | .advance T dt cf =>
    let r := advance_time stepFn cadence T dt cf sim.clock sim.state
    ({ sim with clock := r.clock, state := r.state }, r.steps)
  | .perform name hook dt script =>
    let p := perform_activity stepFn cadence dt sim name hook script
    (p.2.1, p.2.2)

/-- Execute a sequence of user calls. -/
def runOps {σ : Type} (stepFn : σ → ℚ → σ) (cadence : ℚ) :
    List (Op σ) → Sim σ → Sim σ
  | [], sim => sim
  | op :: ops, sim => runOps stepFn cadence ops (runOp stepFn cadence sim op).1

/-- Modelled from the spec: the configuration snapshot of a simulation
instance (sections 3 and 6): integration step, constraint cadence, start
epoch, real-time multiplier and logging interval.  The spec fixes the
field set but not the numeric defaults; the values below stand for the
defaults shipped with the implementation. -/
structure SimCfg where
  dt : ℚ
  activity_timestep : ℚ
  start_time : ℚ
  time_multiplier : ℚ
  logging_interval : ℚ
deriving DecidableEq, Repr

/-- Modelled from the spec: the default configuration used when the user
does not supply one (section 6). -/
def load_default_cfg : SimCfg :=
  { dt := 10, activity_timestep := 1, start_time := 0,
    time_multiplier := 1, logging_interval := 10 }

/-- A freshly initialised simulation instance: the owned local actor and
the immutable configuration snapshot. -/
structure SimInstance (σ : Type) where
  localActor : σ
  cfg : SimCfg

/-- Modelled from the spec: `init_sim(local_actor, cfg)` (section 3).
The configuration argument is optional; when omitted (`none`) the
default configuration is used. -/
def init_sim {σ : Type} (localActor : σ) (cfg : Option SimCfg) : SimInstance σ :=
  { localActor := localActor, cfg := cfg.getD load_default_cfg }

/-- Modelled from the spec: the two actor kinds (section 3). -/
inductive ActorType where
  | SpacecraftActor
  | GroundstationActor
deriving DecidableEq, Repr

/-- Modelled from the spec: an actor as assembled by the builder —
identity, kind, and the optional attached devices and models
(section 3). -/
structure Actor where
  name : String
  actorType : ActorType
  battery : Option Battery
  hasOrbit : Bool
  hasThermal : Bool
  hasRadiation : Bool
deriving DecidableEq, Repr

/-- Setup-time configuration error (section 7): attaching an unsupported
device type to an actor. -/
inductive SetupError where
  | UnsupportedActorType
deriving DecidableEq, Repr

/-- Modelled from the spec: `ActorBuilder.set_power_devices` — a power
device can only be attached to a SpacecraftActor; a GroundstationActor
is rejected at setup time (README: you cannot add a power device and an
orbit to a GroundstationActor). -/
def set_power_devices (a : Actor) (b : Battery) : Except SetupError Actor :=
  match a.actorType with
  | .SpacecraftActor => .ok { a with battery := some b }
  | .GroundstationActor => .error .UnsupportedActorType

/-- Modelled from the spec: `ActorBuilder.set_orbit` — an orbit can only
be set on a SpacecraftActor. -/
def set_orbit (a : Actor) : Except SetupError Actor :=
  match a.actorType with
  | .SpacecraftActor => .ok { a with hasOrbit := true }
  | .GroundstationActor => .error .UnsupportedActorType

/-- Modelled from the spec: `ActorBuilder.set_thermal_model` — the
thermal model is only available for a SpacecraftActor. -/
def set_thermal_model (a : Actor) : Except SetupError Actor :=
  match a.actorType with
  | .SpacecraftActor => .ok { a with hasThermal := true }
  | .GroundstationActor => .error .UnsupportedActorType

/-- Modelled from the spec: `ActorBuilder.set_radiation_model` — only
SpacecraftActors support radiation models. -/
def set_radiation_model (a : Actor) : Except SetupError Actor :=
  match a.actorType with
  | .SpacecraftActor => .ok { a with hasRadiation := true }
  | .GroundstationActor => .error .UnsupportedActorType

section SchedulerLemmas

variable {σ : Type} (stepFn : σ → ℚ → σ) (cadence dt : ℚ)

/-- The clock moved by a single engine run equals the start clock plus
the sum of the consumed step sizes. -/
theorem advance_time_clock_sum (T : ℚ) (cf : Option (σ → Except String Bool))
    (clock : ℚ) (s : σ) :
    (advance_time stepFn cadence T dt cf clock s).clock
      = clock + (advance_time stepFn cadence T dt cf clock s).steps.sum := by
  unfold advance_time
  rw [advanceLoop_clock, advanceLoop_steps_sum]

/-- Whenever the driving loop terminates the activity, the on-termination
hook has been invoked exactly once when present, and not at all when
absent. -/
theorem activityLoop_hook (hook : Bool) :
    ∀ (script : List Tick) (sim : Sim σ) (o : ActOutcome),
      (activityLoop stepFn cadence dt hook script sim).outcome = some o →
      (activityLoop stepFn cadence dt hook script sim).hookCalls
        = if hook then 1 else 0 := by
  intro script
  induction script with
  | nil =>
    intro sim o
    simp [activityLoop]
  | cons t rest ih =>
    intro sim o
    rw [activityLoop]
    by_cases hd : (sim.isDead || t.deadEvent) = true
    · simp [hd]
    · simp only [hd, if_neg, Bool.not_eq_true]
      by_cases hf : t.bodyFinishes = true
      · simp [hd, hf]
      · by_cases hr : (t.bodyRaises || t.restart || !t.constraintHolds) = true
        · simp [hd, hf, hr]
        · simp only [hd, hf, hr, Bool.false_eq_true, if_neg, if_false]
          exact ih _ o

/-- The clock after driving an activity equals the clock before plus the
sum of all consumed step sizes. -/
theorem activityLoop_clock (hook : Bool) :
    ∀ (script : List Tick) (sim : Sim σ),
      (activityLoop stepFn cadence dt hook script sim).sim.clock
        = sim.clock + (activityLoop stepFn cadence dt hook script sim).steps.sum := by
  intro script
  induction script with
  | nil =>
    intro sim
    simp [activityLoop]
  | cons t rest ih =>
    intro sim
    rw [activityLoop]
    by_cases hd : (sim.isDead || t.deadEvent) = true
    · simp only [hd, if_pos]
      exact advance_time_clock_sum stepFn cadence dt cadence none sim.clock sim.state
    · simp only [hd, if_neg, Bool.not_eq_true]
      by_cases hf : t.bodyFinishes = true
      · simp only [hd, hf, Bool.false_eq_true, if_false, if_true]
        exact advance_time_clock_sum stepFn cadence dt cadence none sim.clock sim.state
      · by_cases hr : (t.bodyRaises || t.restart || !t.constraintHolds) = true
        · simp only [hd, hf, hr, Bool.false_eq_true, if_false, if_true]
          exact advance_time_clock_sum stepFn cadence dt cadence none sim.clock sim.state
        · simp only [hd, hf, hr, Bool.false_eq_true, if_false]
          rw [List.sum_append, ih]
          have := advance_time_clock_sum stepFn cadence dt cadence none sim.clock sim.state
          simp only [this]
          ring

/-- Every step size consumed by the driving loop is nonnegative. -/
theorem activityLoop_steps_nonneg (hook : Bool) (hdt : 0 ≤ dt) :
    ∀ (script : List Tick) (sim : Sim σ),
      ∀ x ∈ (activityLoop stepFn cadence dt hook script sim).steps, 0 ≤ x := by
  intro script
  induction script with
  | nil =>
    intro sim
    simp [activityLoop]
  | cons t rest ih =>
    intro sim
    rw [activityLoop]
    have hadv := advanceLoop_steps_nonneg stepFn cadence cadence dt
      (none : Option (σ → Except String Bool)) hdt (fuelFor cadence dt) 0 sim.clock sim.state
    by_cases hd : (sim.isDead || t.deadEvent) = true
    · simp only [hd, if_pos]
      exact hadv
    · simp only [hd, if_neg, Bool.not_eq_true]
      by_cases hf : t.bodyFinishes = true
      · simp only [hd, hf, Bool.false_eq_true, if_false, if_true]
        exact hadv
      · by_cases hr : (t.bodyRaises || t.restart || !t.constraintHolds) = true
        · simp only [hd, hf, hr, Bool.false_eq_true, if_false, if_true]
          exact hadv
        · simp only [hd, hf, hr, Bool.false_eq_true, if_false]
          intro x hx
          rcases List.mem_append.mp hx with hx | hx
          · exact hadv x hx
          · exact ih _ x hx

/-- The permanent failure flag is never cleared by the driving loop. -/
theorem activityLoop_dead_mono (hook : Bool) :
    ∀ (script : List Tick) (sim : Sim σ), sim.isDead = true →
      (activityLoop stepFn cadence dt hook script sim).sim.isDead = true := by
  intro script
  induction script with
  | nil =>
    intro sim hdead
    simpa [activityLoop] using hdead
  | cons t rest ih =>
    intro sim hdead
    rw [activityLoop]
    simp [hdead]

/-- A tick that observes the permanent failure flag interrupts the
running activity immediately. -/
theorem activityLoop_dead_interrupts (hook : Bool) (t : Tick) (rest : List Tick)
    (sim : Sim σ) (hdead : (sim.isDead || t.deadEvent) = true) :
    (activityLoop stepFn cadence dt hook (t :: rest) sim).outcome = some .INTERRUPTED ∧
      (activityLoop stepFn cadence dt hook (t :: rest) sim).steps
        = (advance_time stepFn cadence cadence dt none sim.clock sim.state).steps := by
  rw [activityLoop]
  simp [hdead]

/-- One user call moves the clock forward by exactly the sum of the step
sizes it consumed. -/
theorem runOp_clock (op : Op σ) (sim : Sim σ) :
    (runOp stepFn cadence sim op).1.clock
      = sim.clock + (runOp stepFn cadence sim op).2.sum := by
  cases op with
  | advance T dtop cf =>
    simpa [runOp] using advance_time_clock_sum stepFn cadence dtop T cf sim.clock sim.state
  | perform name hook dtop script =>
    simp only [runOp, perform_activity]
    by_cases hreg : name ∈ sim.registered
    · simp only [hreg, if_pos]
      by_cases hd : sim.isDead = true
      · simp [hd]
      · simp only [hd, Bool.false_eq_true, if_false, if_neg]
        by_cases hr : sim.running = true
        · simp [hr]
        · simp only [hr, Bool.false_eq_true, if_false, if_neg]
          exact activityLoop_clock stepFn cadence dtop hook script _
    · simp [hreg]

/-- Every step size consumed by a well-formed user call is nonnegative. -/
theorem runOp_steps_nonneg (op : Op σ) (sim : Sim σ) (hwf : op.wf) :
    ∀ x ∈ (runOp stepFn cadence sim op).2, 0 ≤ x := by
  cases op with
  | advance T dtop cf =>
    simp only [Op.wf] at hwf
    simpa [runOp, advance_time] using
      advanceLoop_steps_nonneg stepFn cadence T dtop cf hwf (fuelFor T dtop) 0 sim.clock sim.state
  | perform name hook dtop script =>
    simp only [Op.wf] at hwf
    simp only [runOp, perform_activity]
    by_cases hreg : name ∈ sim.registered
    · simp only [hreg, if_pos]
      by_cases hd : sim.isDead = true
      · simp [hd]
      · simp only [hd, Bool.false_eq_true, if_false, if_neg]
        by_cases hr : sim.running = true
        · simp [hr]
        · simp only [hr, Bool.false_eq_true, if_false, if_neg]
          exact activityLoop_steps_nonneg stepFn cadence dtop hook hwf script _
    · simp [hreg]

/-- The clock is non-decreasing across one well-formed user call. -/
theorem runOp_clock_mono (op : Op σ) (sim : Sim σ) (hwf : op.wf) :
    sim.clock ≤ (runOp stepFn cadence sim op).1.clock := by
  rw [runOp_clock]
  have := List.sum_nonneg (runOp_steps_nonneg stepFn cadence op sim hwf)
  linarith

/-- The clock is non-decreasing across any sequence of well-formed user
calls. -/
theorem runOps_clock_mono :
    ∀ (ops : List (Op σ)) (sim : Sim σ), (∀ op ∈ ops, op.wf) →
      sim.clock ≤ (runOps stepFn cadence ops sim).clock := by
  intro ops
  induction ops with
  | nil =>
    intro sim h
    simp [runOps]
  | cons op ops ih =>
    intro sim h
    rw [runOps]
    have h1 := runOp_clock_mono stepFn cadence op sim (h op (by simp))
    have h2 := ih (runOp stepFn cadence sim op).1 (fun o ho => h o (by simp [ho]))
    linarith

/-- No user call ever clears the permanent failure flag. -/
theorem runOp_dead_mono (op : Op σ) (sim : Sim σ) (hdead : sim.isDead = true) :
    (runOp stepFn cadence sim op).1.isDead = true := by
  cases op with
  | advance T dtop cf => simpa [runOp] using hdead
  | perform name hook dtop script =>
    simp only [runOp, perform_activity]
    by_cases hreg : name ∈ sim.registered
    · simp [hreg, hdead]
    · simp [hreg, hdead]

/-- No sequence of user calls ever clears the permanent failure flag. -/
theorem runOps_dead_mono :
    ∀ (ops : List (Op σ)) (sim : Sim σ), sim.isDead = true →
      (runOps stepFn cadence ops sim).isDead = true := by
  intro ops
  induction ops with
  | nil =>
    intro sim h
    simpa [runOps] using h
  | cons op ops ih =>
    intro sim h
    rw [runOps]
    exact ih _ (runOp_dead_mono stepFn cadence op sim h)

end SchedulerLemmas

/-- If a greedy step list fully consumes a duration no larger than the
step bound, it consists of that single duration. -/
theorem greedy_single (dt T : ℚ) (hT : 0 < T) (hle : T ≤ dt) :
    ∀ l : List ℚ, greedy dt T l → l = [T] := by
  intro l hg
  cases l with
  | nil =>
    simp only [greedy] at hg
    linarith
  | cons a l2 =>
    obtain ⟨h1, h2, h3⟩ := hg
    have ha : a = T := by rw [h2]; exact min_eq_right hle
    subst ha
    cases l2 with
    | nil => rfl
    | cons b l3 =>
      obtain ⟨hb, _, _⟩ := h3
      simp only [sub_self] at hb
      exact absurd hb (lt_irrefl 0)

/-- C1: if the constraint function returns False at the first evaluated
cadence boundary after it starts failing, `advance_time` stops
immediately and returns `total_duration - elapsed` (the unconsumed
remainder), with the clock of the actor advanced exactly by that elapsed
time, the failing evaluation being the last one performed and all
earlier evaluations having passed; if no constraint evaluation ever
fails, the call runs to completion and returns 0. -/
theorem claim_C1 {σ : Type} (stepFn : σ → ℚ → σ) (cadence T dt : ℚ)
    (cf : Option (σ → Except String Bool)) (clock : ℚ) (s : σ)
    (hdt : 0 < dt) (hT : 0 ≤ T) :
    ((advance_time stepFn cadence T dt cf clock s).outcome = .interrupted →
      (advance_time stepFn cadence T dt cf clock s).remaining
          = T - (advance_time stepFn cadence T dt cf clock s).elapsed ∧
        (advance_time stepFn cadence T dt cf clock s).clock
          = clock + (advance_time stepFn cadence T dt cf clock s).elapsed ∧
        (∃ pre, (advance_time stepFn cadence T dt cf clock s).checks
            = pre ++ [((advance_time stepFn cadence T dt cf clock s).elapsed, false)] ∧
          ∀ c ∈ pre, c.2 = true)) ∧
    ((∀ x : σ, (evalConstraint cf x).1 = true) →
      (advance_time stepFn cadence T dt cf clock s).outcome = .completed ∧
        (advance_time stepFn cadence T dt cf clock s).remaining = 0 ∧
        (advance_time stepFn cadence T dt cf clock s).elapsed = T) := by
  constructor
  · intro hout
    obtain ⟨h1, h2, _, _⟩ := advanceLoop_interrupted stepFn cadence T dt cf
      (fuelFor T dt) 0 clock s hout
    refine ⟨h1, ?_, h2⟩
    have := advanceLoop_clock stepFn cadence T dt cf (fuelFor T dt) 0 clock s
    simpa using this
  · intro hall
    have hnotint := advanceLoop_alltrue stepFn cadence T dt cf hall
      (fuelFor T dt) 0 clock s
    have hnotfuel := advanceLoop_fuel stepFn cadence T dt cf hdt
      (fuelFor T dt) 0 clock s (by simpa using fuelFor_bound T dt hdt)
    have hcomp : (advance_time stepFn cadence T dt cf clock s).outcome = .completed := by
      unfold advance_time
      rcases hoc : (advanceLoop stepFn cadence T dt cf (fuelFor T dt) 0 clock s).outcome with
        _ | _ | _
      · rfl
      · exact absurd hoc hnotint
      · exact absurd hoc hnotfuel
    obtain ⟨hrem, hge⟩ := advanceLoop_completed stepFn cadence T dt cf
      (fuelFor T dt) 0 clock s hcomp
    have hle := advanceLoop_elapsed_le stepFn cadence T dt cf
      (fuelFor T dt) 0 clock s hT
    exact ⟨hcomp, hrem, le_antisymm hle hge⟩

/-- Concrete interrupted run used by the C1 witness: state is simulated
time, constraint fails once the state reaches 2. -/
def c1run : RunResult ℚ :=
  advance_time (fun s st => s + st) 1 3 1 (some fun s => .ok (decide (s < 2))) 0 0

/-- Witness for C1: on a concrete run interrupted at elapsed time 2 of a
3 second advance, the hypotheses of `claim_C1` hold and its conclusion
evaluates. -/
theorem claim_C1_witness :
    (0 : ℚ) < 1 ∧ c1run.remaining = 3 - c1run.elapsed ∧ c1run.clock = 0 + c1run.elapsed := by
  have h := claim_C1 (fun (s : ℚ) st => s + st) 1 3 1
    (some fun s => .ok (decide (s < 2))) 0 0 (by norm_num) (by norm_num)
  have hint : c1run.outcome = .interrupted := by
    norm_num [c1run, advance_time, advanceLoop, fuelFor, crossedCadence, evalConstraint,
      Int.toNat_ofNat]
  obtain ⟨h1, h2, _⟩ := h.1 hint
  exact ⟨by norm_num, h1, h2⟩

/-- Physical step function that carries no state, used for engine claims
that do not depend on the physical models. -/
def unitStep : Unit → ℚ → Unit := fun u _ => u

/-- C2: for positive `total_duration` and `dt`, `advance_time` with no
constraint function takes steps of size `min dt (T - elapsed)` until the
full duration is consumed and returns 0 regardless of divisibility; with
`dt` at least the duration it performs exactly one step of the full
duration; with duration 100 and `dt` 30 it performs exactly the four
steps 30, 30, 30, 10. -/
theorem claim_C2 :
    (∀ (σ : Type) (stepFn : σ → ℚ → σ) (cadence clock : ℚ) (s : σ) (T dt : ℚ),
      0 < T → 0 < dt →
      (advance_time stepFn cadence T dt none clock s).remaining = 0 ∧
        (advance_time stepFn cadence T dt none clock s).elapsed = T ∧
        greedy dt T (advance_time stepFn cadence T dt none clock s).steps ∧
        (T ≤ dt → (advance_time stepFn cadence T dt none clock s).steps = [T])) ∧
    (advance_time unitStep 1 100 30 none 0 ()).steps = [30, 30, 30, 10] := by
  constructor
  · intro σ stepFn cadence clock s T dt hT hdt
    have hnone := advanceLoop_none stepFn cadence T dt (fuelFor T dt) 0 clock s
    have hnotfuel := advanceLoop_fuel stepFn cadence T dt none hdt
      (fuelFor T dt) 0 clock s (by simpa using fuelFor_bound T dt hdt)
    have hcomp : (advance_time stepFn cadence T dt none clock s).outcome = .completed := by
      unfold advance_time
      rcases hoc : (advanceLoop stepFn cadence T dt none (fuelFor T dt) 0 clock s).outcome with
        _ | _ | _
      · rfl
      · exact absurd hoc hnone.2.2
      · exact absurd hoc hnotfuel
    obtain ⟨hrem, hge⟩ := advanceLoop_completed stepFn cadence T dt none
      (fuelFor T dt) 0 clock s hcomp
    have hle := advanceLoop_elapsed_le stepFn cadence T dt none
      (fuelFor T dt) 0 clock s (le_of_lt hT)
    have hgr := advanceLoop_greedy stepFn cadence T dt none
      (fuelFor T dt) 0 clock s hcomp
    rw [sub_zero] at hgr
    refine ⟨hrem, le_antisymm hle hge, hgr, ?_⟩
    intro hTdt
    exact greedy_single dt T hT hTdt _ hgr
  · norm_num [advance_time, advanceLoop, fuelFor, crossedCadence, unitStep, Int.toNat_ofNat]

/-- Witness for C2: the general statement applied to the concrete run
with duration 100 and step 30. -/
theorem claim_C2_witness :
    (0 : ℚ) < 100 ∧ (advance_time unitStep 1 100 30 none 0 ()).remaining = 0 :=
  ⟨by norm_num, (claim_C2.1 Unit unitStep 1 0 () 100 30 (by norm_num) (by norm_num)).1⟩

/-- The battery of the concrete power scenario of the spec: capacity
2000 Ws, level 100 Ws, charging rate 10 W, solar panel. -/
def scenarioBattery : Battery :=
  { level := 100, maxLevel := 2000, chargingRate := 10, deviceType := .SolarPanel }

/-- C3: one step of the power model yields
`clamp(level + (charging_rate_if_applicable - power_consumption) * dt, 0, max)`
where charging applies unconditionally for RTG devices and exactly
outside eclipse for SolarPanel devices; the resulting level always lies
in `[0, max]`; and in the concrete scenario (capacity 2000 Ws, level
100 Ws, charge rate 10 W, no eclipse, draw 10 W for 50 s at `dt` 10)
the final level is exactly 100 Ws. -/
theorem claim_C3 :
    (∀ (b : Battery) (ecl : Bool) (cons dtp : ℚ),
      (powerStep ecl cons dtp b).level
          = clamp 0 b.maxLevel
            (b.level + ((if chargeApplies b.deviceType ecl then b.chargingRate else 0)
                - cons) * dtp) ∧
        chargeApplies .RTG ecl = true ∧
        chargeApplies .SolarPanel ecl = !ecl ∧
        (0 ≤ b.maxLevel →
          0 ≤ (powerStep ecl cons dtp b).level ∧
            (powerStep ecl cons dtp b).level ≤ b.maxLevel)) ∧
    (advance_time (fun b st => powerStep false 10 st b) 1 50 10 none 0
        scenarioBattery).state.level = 100 := by
  constructor
  · intro b ecl cons dtp
    refine ⟨rfl, rfl, rfl, ?_⟩
    intro hmax
    constructor
    · exact le_max_left _ _
    · exact max_le hmax (min_le_right _ _)
  · norm_num [advance_time, advanceLoop, fuelFor, crossedCadence, powerStep, clamp,
      chargeApplies, scenarioBattery, Int.toNat_ofNat]

/-- Witness for C3: the bounds clause applied to the scenario battery. -/
theorem claim_C3_witness :
    (0 : ℚ) ≤ 2000 ∧ 0 ≤ (powerStep false 10 10 scenarioBattery).level :=
  ⟨by norm_num, by
    have h := (claim_C3.1 scenarioBattery false 10 10).2.2.2 (by norm_num [scenarioBattery])
    simpa [scenarioBattery] using h.1⟩

/-- C4: for every performed activity with an on-termination hook, whether
the activity completes normally, is interrupted by a failed constraint,
by a radiation restart event, by the permanent failure flag, or because
its body raises, the hook is invoked exactly once. -/
theorem claim_C4 {σ : Type} (stepFn : σ → ℚ → σ) (cadence dt : ℚ) :
    (∀ (script : List Tick) (sim : Sim σ) (o : ActOutcome),
      (activityLoop stepFn cadence dt true script sim).outcome = some o →
      (activityLoop stepFn cadence dt true script sim).hookCalls = 1) ∧
    (∀ (sim : Sim σ) (name : String) (script : List Tick) (o : ActOutcome) (n : ℕ),
      (perform_activity stepFn cadence dt sim name true script).1 = .ok (some o, n) →
      n = 1) := by
  constructor
  · intro script sim o hout
    simpa using activityLoop_hook stepFn cadence dt true script sim o hout
  · intro sim name script o n hok
    unfold perform_activity at hok
    by_cases hreg : name ∈ sim.registered
    · simp only [hreg, if_pos] at hok
      by_cases hd : sim.isDead = true
      · simp [hd] at hok
      · simp only [hd, Bool.false_eq_true, if_false, if_neg] at hok
        by_cases hr : sim.running = true
        · simp [hr] at hok
        · simp only [hr, Bool.false_eq_true, if_false, if_neg] at hok
          obtain ⟨ho, hn⟩ := Prod.mk.injEq _ _ _ _ ▸ Except.ok.injEq _ _ ▸ hok
          have h1 := activityLoop_hook stepFn cadence dt true script
            { registered := sim.registered, running := true, isDead := false,
              clock := sim.clock, state := sim.state } o ho
          simp only [if_true] at h1
          rw [← hn, h1]
    · simp [hreg] at hok

/-- Concrete one-tick script in which the activity body finishes
normally, used by the C4 witness. -/
def c4script : List Tick :=
  [{ deadEvent := false, restart := false, constraintHolds := true,
     bodyRaises := false, bodyFinishes := true }]

/-- Concrete idle simulation state used by the scheduler witnesses. -/
def simIdle : Sim Unit :=
  { registered := ["act"], running := false, isDead := false, clock := 0, state := () }

/-- Witness for C4: a concrete normally completing activity invokes the
hook exactly once. -/
theorem claim_C4_witness :
    (activityLoop unitStep 1 1 true c4script simIdle).outcome = some .COMPLETED ∧
      (activityLoop unitStep 1 1 true c4script simIdle).hookCalls = 1 := by
  have hout : (activityLoop unitStep 1 1 true c4script simIdle).outcome
      = some .COMPLETED := by
    norm_num [activityLoop, c4script, simIdle, advance_time, advanceLoop, fuelFor,
      crossedCadence, unitStep, Int.toNat_ofNat]
  exact ⟨hout, (claim_C4 unitStep 1 1).1 c4script simIdle .COMPLETED hout⟩

/-- C5: at most one activity is in flight — `perform_activity` while the
scheduler is not idle always fails with `ActivityAlreadyRunningError`
and leaves the simulation state untouched with no step consumed (the
activity is neither queued nor run), and calling it with an unregistered
name always fails with `UnknownActivityError`. -/
theorem claim_C5 {σ : Type} (stepFn : σ → ℚ → σ) (cadence dt : ℚ) :
    (∀ (sim : Sim σ) (name : String) (hook : Bool) (script : List Tick),
      name ∉ sim.registered →
      perform_activity stepFn cadence dt sim name hook script
        = (.error .UnknownActivityError, sim, [])) ∧
    (∀ (sim : Sim σ) (name : String) (hook : Bool) (script : List Tick),
      name ∈ sim.registered → sim.isDead = false → sim.running = true →
      perform_activity stepFn cadence dt sim name hook script
        = (.error .ActivityAlreadyRunningError, sim, [])) := by
  constructor
  · intro sim name hook script hreg
    simp [perform_activity, hreg]
  · intro sim name hook script hreg hd hr
    simp [perform_activity, hreg, hd, hr]

/-- Concrete running simulation state used by the C5 witness. -/
def simRunning : Sim Unit :=
  { registered := ["act"], running := true, isDead := false, clock := 0, state := () }

/-- Witness for C5: with an activity already in flight, a concrete
`perform_activity` call fails with the documented error and changes
nothing; with an unregistered name it fails with the unknown-name
error. -/
theorem claim_C5_witness :
    perform_activity unitStep 1 1 simRunning "act" true []
        = (.error .ActivityAlreadyRunningError, simRunning, []) ∧
      perform_activity unitStep 1 1 simRunning "other" true []
        = (.error .UnknownActivityError, simRunning, []) :=
  ⟨(claim_C5 unitStep 1 1).2 simRunning "act" true [] (by simp [simRunning]) rfl rfl,
    (claim_C5 unitStep 1 1).1 simRunning "other" true [] (by simp [simRunning])⟩

/-- C6: a raising constraint predicate is treated as a False verdict with
a surfaced error record, never as a silent continue — at the evaluator
level and, on an interrupted run, the surfaced record of the failing
evaluation is returned by the engine; when no constraint function is
provided execution always continues with no evaluation at all. -/
theorem claim_C6 {σ : Type} :
    (∀ (g : σ → Except String Bool) (s : σ) (e : String),
      g s = .error e → evalConstraint (some g) s = (false, some e)) ∧
    (∀ s : σ, evalConstraint (none : Option (σ → Except String Bool)) s = (true, none)) ∧
    (∀ (stepFn : σ → ℚ → σ) (cadence T dt clock : ℚ) (s : σ), 0 < dt → 0 ≤ T →
      (advance_time stepFn cadence T dt none clock s).checks = [] ∧
        (advance_time stepFn cadence T dt none clock s).errors = [] ∧
        (advance_time stepFn cadence T dt none clock s).outcome = .completed ∧
        (advance_time stepFn cadence T dt none clock s).remaining = 0) ∧
    (∀ (stepFn : σ → ℚ → σ) (cadence T dt clock : ℚ)
        (cf : Option (σ → Except String Bool)) (s : σ),
      (advance_time stepFn cadence T dt cf clock s).outcome = .interrupted →
      (advance_time stepFn cadence T dt cf clock s).errors
        = (evalConstraint cf (advance_time stepFn cadence T dt cf clock s).state).2.toList) := by
  refine ⟨?_, ?_, ?_, ?_⟩
  · intro g s e hg
    simp [evalConstraint, hg]
  · intro s
    rfl
  · intro stepFn cadence T dt clock s hdt hT
    have hnone := advanceLoop_none stepFn cadence T dt (fuelFor T dt) 0 clock s
    have hnotfuel := advanceLoop_fuel stepFn cadence T dt none hdt
      (fuelFor T dt) 0 clock s (by simpa using fuelFor_bound T dt hdt)
    have hcomp : (advance_time stepFn cadence T dt none clock s).outcome = .completed := by
      unfold advance_time
      rcases hoc : (advanceLoop stepFn cadence T dt none (fuelFor T dt) 0 clock s).outcome with
        _ | _ | _
      · rfl
      · exact absurd hoc hnone.2.2
      · exact absurd hoc hnotfuel
    obtain ⟨hrem, _⟩ := advanceLoop_completed stepFn cadence T dt none
      (fuelFor T dt) 0 clock s hcomp
    exact ⟨hnone.1, hnone.2.1, hcomp, hrem⟩
  · intro stepFn cadence T dt clock cf s hout
    exact (advanceLoop_interrupted stepFn cadence T dt cf
      (fuelFor T dt) 0 clock s hout).2.2.2

/-- Witness for C6: a concretely raising predicate is mapped to a False
verdict with its error surfaced, and a concrete constraint-free run
performs no evaluation. -/
theorem claim_C6_witness :
    evalConstraint (some fun _ : Unit => Except.error "boom") () = (false, some "boom") ∧
      (advance_time unitStep 1 100 30 none 0 ()).checks = [] :=
  ⟨(claim_C6 (σ := Unit)).1 (fun _ => .error "boom") () "boom" rfl,
    ((claim_C6 (σ := Unit)).2.2.1 unitStep 1 100 30 0 () (by norm_num) (by norm_num)).1⟩

/-- C7: once the permanent failure flag is set it is never cleared by any
sequence of calls; any running activity is interrupted at the next tick
that observes the flag; every subsequent `perform_activity` call on a
registered activity fails fast with `ActorDestroyedError`; and plain
physical-model stepping through `advance_time` is unaffected by the
flag. -/
theorem claim_C7 {σ : Type} (stepFn : σ → ℚ → σ) (cadence dt : ℚ) :
    (∀ (ops : List (Op σ)) (sim : Sim σ), sim.isDead = true →
      (runOps stepFn cadence ops sim).isDead = true) ∧
    (∀ (hook : Bool) (t : Tick) (rest : List Tick) (sim : Sim σ),
      (sim.isDead || t.deadEvent) = true →
      (activityLoop stepFn cadence dt hook (t :: rest) sim).outcome = some .INTERRUPTED) ∧
    (∀ (sim : Sim σ) (name : String) (hook : Bool) (script : List Tick),
      name ∈ sim.registered → sim.isDead = true →
      (perform_activity stepFn cadence dt sim name hook script).1
        = .error .ActorDestroyedError) ∧
    (∀ (T dtA : ℚ) (cf : Option (σ → Except String Bool)) (sim : Sim σ),
      (runOp stepFn cadence { sim with isDead := true } (.advance T dtA cf)).1.state
          = (runOp stepFn cadence { sim with isDead := false } (.advance T dtA cf)).1.state ∧
        (runOp stepFn cadence { sim with isDead := true } (.advance T dtA cf)).1.clock
          = (runOp stepFn cadence { sim with isDead := false } (.advance T dtA cf)).1.clock ∧
        (runOp stepFn cadence { sim with isDead := true } (.advance T dtA cf)).2
          = (runOp stepFn cadence { sim with isDead := false } (.advance T dtA cf)).2) := by
  refine ⟨?_, ?_, ?_, ?_⟩
  · intro ops sim hdead
    exact runOps_dead_mono stepFn cadence ops sim hdead
  · intro hook t rest sim hdead
    exact (activityLoop_dead_interrupts stepFn cadence dt hook t rest sim hdead).1
  · intro sim name hook script hreg hdead
    simp [perform_activity, hreg, hdead]
  · intro T dtA cf sim
    refine ⟨?_, ?_, ?_⟩ <;> simp [runOp]

/-- Concrete dead simulation state used by the C7 witness. -/
def simDead : Sim Unit :=
  { registered := ["act"], running := false, isDead := true, clock := 0, state := () }

/-- Witness for C7: on a concrete dead actor, `perform_activity` fails
with `ActorDestroyedError` and the flag survives an `advance` call. -/
theorem claim_C7_witness :
    (perform_activity unitStep 1 1 simDead "act" true []).1
        = .error .ActorDestroyedError ∧
      (runOps unitStep 1 [.advance 100 30 none] simDead).isDead = true :=
  ⟨(claim_C7 unitStep 1 1).2.2.1 simDead "act" true [] (by simp [simDead]) rfl,
    (claim_C7 unitStep 1 1).1 [.advance 100 30 none] simDead rfl⟩

/-- C8: across every sequence of `advance_time` and `perform_activity`
calls on one simulation instance, the clock of the local actor is
non-decreasing, and after each call it equals its previous value plus
exactly the sum of the step sizes actually consumed by that call. -/
theorem claim_C8 {σ : Type} (stepFn : σ → ℚ → σ) (cadence : ℚ) :
    (∀ (op : Op σ) (sim : Sim σ),
      (runOp stepFn cadence sim op).1.clock
        = sim.clock + (runOp stepFn cadence sim op).2.sum) ∧
    (∀ (op : Op σ) (sim : Sim σ), op.wf →
      sim.clock ≤ (runOp stepFn cadence sim op).1.clock) ∧
    (∀ (ops : List (Op σ)) (sim : Sim σ), (∀ op ∈ ops, op.wf) →
      sim.clock ≤ (runOps stepFn cadence ops sim).clock) := by
  refine ⟨?_, ?_, ?_⟩
  · intro op sim
    exact runOp_clock stepFn cadence op sim
  · intro op sim hwf
    exact runOp_clock_mono stepFn cadence op sim hwf
  · intro ops sim hwf
    exact runOps_clock_mono stepFn cadence ops sim hwf

/-- Witness for C8: the monotonicity clause applied to a concrete
two-call sequence. -/
theorem claim_C8_witness :
    simIdle.clock
      ≤ (runOps unitStep 1 [.advance 100 30 none, .perform "act" true 1 c4script]
          simIdle).clock :=
  (claim_C8 unitStep 1).2.2 [.advance 100 30 none, .perform "act" true 1 c4script]
    simIdle (by
      intro op hop
      simp only [List.mem_cons, List.mem_singleton, List.not_mem_nil, or_false] at hop
      rcases hop with rfl | rfl <;> norm_num [Op.wf])

/-- C9: `init_sim` can be called with the local actor alone — the
configuration argument is optional and, when omitted, the default
configuration is used for the instance. -/
theorem claim_C9 {σ : Type} (a : σ) :
    init_sim a none = init_sim a (some load_default_cfg) ∧
      (init_sim a none).cfg = load_default_cfg ∧
      (init_sim a none).localActor = a :=
  ⟨rfl, rfl, rfl⟩

/-- C10: device attachment is restricted by actor type — a
GroundstationActor can be given neither a power device, an orbit, a
thermal model nor a radiation model (rejected at setup time), and each
of these setters succeeds only on a SpacecraftActor. -/
theorem claim_C10 :
    (∀ (a : Actor) (b : Battery), a.actorType = .GroundstationActor →
      set_power_devices a b = .error .UnsupportedActorType ∧
        set_orbit a = .error .UnsupportedActorType ∧
        set_thermal_model a = .error .UnsupportedActorType ∧
        set_radiation_model a = .error .UnsupportedActorType) ∧
    (∀ (a : Actor) (b : Battery) (a2 : Actor),
      set_power_devices a b = .ok a2 → a.actorType = .SpacecraftActor) ∧
    (∀ (a a2 : Actor), set_orbit a = .ok a2 → a.actorType = .SpacecraftActor) ∧
    (∀ (a a2 : Actor), set_thermal_model a = .ok a2 → a.actorType = .SpacecraftActor) ∧
    (∀ (a a2 : Actor), set_radiation_model a = .ok a2 → a.actorType = .SpacecraftActor) := by
  refine ⟨?_, ?_, ?_, ?_, ?_⟩
  · intro a b hgs
    refine ⟨?_, ?_, ?_, ?_⟩ <;>
      simp [set_power_devices, set_orbit, set_thermal_model, set_radiation_model, hgs]
  · intro a b a2 h
    cases hat : a.actorType with
    | SpacecraftActor => rfl
    | GroundstationActor => simp [set_power_devices, hat] at h
  · intro a a2 h
    cases hat : a.actorType with
    | SpacecraftActor => rfl
    | GroundstationActor => simp [set_orbit, hat] at h
  · intro a a2 h
    cases hat : a.actorType with
    | SpacecraftActor => rfl
    | GroundstationActor => simp [set_thermal_model, hat] at h
  · intro a a2 h
    cases hat : a.actorType with
    | SpacecraftActor => rfl
    | GroundstationActor => simp [set_radiation_model, hat] at h

/-- Concrete ground station actor used by the C10 witness. -/
def gsActor : Actor :=
  { name := "gs", actorType := .GroundstationActor, battery := none,
    hasOrbit := false, hasThermal := false, hasRadiation := false }

/-- Witness for C10: attaching a power device to a concrete ground
station actor is rejected at setup time. -/
theorem claim_C10_witness :
    set_power_devices gsActor scenarioBattery = .error .UnsupportedActorType ∧
      set_thermal_model gsActor = .error .UnsupportedActorType := by
  have h := claim_C10.1 gsActor scenarioBattery rfl
  exact ⟨h.1, h.2.2.1⟩

end Paseos
